import Mathlib

/-!
Shallow embedding of the slave-group process-data layer of an EtherCAT master
stack (`src/slave_group.rs`), plus a spec-modelled frame-slot machine for the
PDU loop.  Machine integers are modelled as `Nat`; the one place the source
accumulates into a `u16` (`group_working_counter`) carries an explicit
`% 2 ^ 16`.
-/

namespace EtherCrab

/-- The error variants of `error::Error` reachable from the slave-group code. -/
inductive Error where
  | PdiTooLong (desired required : Nat)
  | WorkingCounter (expected received : Nat) (context : Option String)
  | TooManySlaves
  | Timeout
deriving DecidableEq, Repr

/-- Modelled from the spec: a `PdiSegment`-style byte range `[lo, hi)` inside a
group's PDI (the `pdi` module is not in the repository snapshot).  Ranges are
byte offsets relative to the group's start address, so that `SlaveGroup::io`
can index the group's PDI buffer with them directly (spec §3 invariant and the
§8 layout scenario). -/
structure PdiSegment where
  lo : Nat
  hi : Nat
deriving DecidableEq, Repr

/-- Two segments overlap when some byte index lies in both half-open ranges. -/
def PdiSegment.Overlaps (a b : PdiSegment) : Prop :=
  ∃ x, (a.lo ≤ x ∧ x < a.hi) ∧ (b.lo ≤ x ∧ x < b.hi)

/-- The in-bounds condition Rust's `slice.get(range)` checks: a well-formed
range whose upper bound fits the buffer. -/
def PdiSegment.withinBuffer (seg : PdiSegment) (len : Nat) : Prop :=
  seg.lo ≤ seg.hi ∧ seg.hi ≤ len

instance (seg : PdiSegment) (len : Nat) : Decidable (seg.withinBuffer len) := by
  unfold PdiSegment.withinBuffer; infer_instance

/-- `IoRanges` (`slave.config.io`): the input/output PDI segments assigned to
one slave, `none` when the slave has no data in that direction. -/
structure IoRanges where
  input : Option PdiSegment
  output : Option PdiSegment
deriving DecidableEq, Repr

/-- Modelled from the spec: `IoRanges::working_counter_sum` (its source file is
not in the snapshot).  Per the doc comment on `group_working_counter` and spec
§3, a slave contributes 1 if it has inputs plus 2 if it has outputs. -/
def IoRanges.working_counter_sum (r : IoRanges) : Nat :=
  (if r.input.isSome then 1 else 0) + (if r.output.isSome then 2 else 0)

/-- Modelled from the spec: the EEPROM-derived PDO mapping of one slave — how
many input and output bytes it maps, `none` when it has no sync manager for
that direction (EEPROM/SII parsing is outside the snapshot, spec §6). -/
structure PdoMapping where
  input_bytes : Option Nat
  output_bytes : Option Nat
deriving DecidableEq, Repr

/-- Total PDI bytes a slave consumes: input plus output sizes. -/
def PdoMapping.total_bytes (m : PdoMapping) : Nat :=
  m.input_bytes.getD 0 + m.output_bytes.getD 0

/-- A slave's working-counter contribution as determined by its mapping. -/
def PdoMapping.wc_contribution (m : PdoMapping) : Nat :=
  (if m.input_bytes.isSome then 1 else 0) + (if m.output_bytes.isSome then 2 else 0)

/-- One discovered slave: its (spec-modelled) PDO mapping together with the IO
ranges the configuration walk writes into `slave.config.io`. -/
structure Slave where
  mapping : PdoMapping
  config_io : IoRanges
deriving DecidableEq, Repr

/-- `PdiOffset` (its source file is not in the snapshot): `slave_group.rs` only
uses the `start_address` field, a logical address modelled as `Nat`. -/
structure PdiOffset where
  start_address : Nat
deriving DecidableEq, Repr

/-- The observable state of a `SlaveGroup`: its slaves, the full compile-time
PDI buffer (`pdi : [u8; MAX_PDI]`, so `pdi.length` is the `MAX_PDI` capacity),
and the configuration fields. -/
structure SlaveGroup where
  slaves : List Slave
  pdi : List Nat
  pdi_len : Nat
  start_address : Nat
  group_working_counter : Nat
deriving DecidableEq, Repr

/-- Modelled from the spec: `SlaveRef::configure_from_eeprom_pre_op` (its
source file is not in the snapshot).  Spec §4.2 step 3 and the §8 scenario: the
slave's finalized PDO sizes yield its input range then its output range back to
back at the running offset (a 2-byte-input, 4-byte-output slave at the group
start gets input `[0,2)` and output `[2,6)`); the ranges are stored relative to
the group's `base` start address so they index the group's PDI buffer, and the
advanced offset is returned. -/
def configure_from_eeprom_pre_op (base : Nat) (s : Slave) (offset : PdiOffset) :
    Slave × PdiOffset :=
  let pos := offset.start_address - base
  let isz := s.mapping.input_bytes.getD 0
  let osz := s.mapping.output_bytes.getD 0
  let iseg := s.mapping.input_bytes.map fun n => PdiSegment.mk pos (pos + n)
  let oseg := s.mapping.output_bytes.map fun n =>
    PdiSegment.mk (pos + isz) (pos + isz + n)
  ({ s with config_io := ⟨iseg, oseg⟩ },
   ⟨offset.start_address + isz + osz⟩)

/-- The slave loop of `configure_from_eeprom` (`slave_group.rs:187-212`):
thread the running offset through each slave's PRE-OP configuration and
accumulate its working-counter contribution into the group's `u16` counter. -/
def config_walk (base : Nat) :
    List Slave → PdiOffset → Nat → List Slave × PdiOffset × Nat
  | [], offset, gwc => ([], offset, gwc)
  | s :: rest, offset, gwc =>
    let step := configure_from_eeprom_pre_op base s offset
    let tail :=
      config_walk base rest step.2
        ((gwc + step.1.config_io.working_counter_sum) % 2 ^ 16)
    (step.1 :: tail.1, tail.2.1, tail.2.2)

/-- `SlaveGroupRef::configure_from_eeprom` (`slave_group.rs:177-226`): set the
group's start address, walk every slave, then compare the consumed length with
the compile-time capacity.  The mutations made before that check —
`start_address`, every slave's config, `group_working_counter` — persist on the
error path, exactly as the `&mut` writes do in the source; `pdi_len` is only
written after the check succeeds. -/
def configure_from_eeprom (g : SlaveGroup) (offset : PdiOffset) :
    SlaveGroup × Except Error PdiOffset :=
  let start_address := offset.start_address
  let walk := config_walk start_address g.slaves offset g.group_working_counter
  let pdi_len := walk.2.1.start_address - start_address
  let g' := { g with slaves := walk.1, start_address := start_address,
                     group_working_counter := walk.2.2 }
  if pdi_len > g.pdi.length then
    (g', .error (.PdiTooLong g.pdi.length pdi_len))
  else
    ({ g' with pdi_len := pdi_len }, .ok walk.2.1)

/-- Rust's fallible `slice.get(range)` / `get_mut(range)` on the PDI buffer:
`some` slice (the range paired with the bytes it views) when the range is well
formed and in bounds, `none` otherwise — never a panic. -/
def sliceGet (data : List Nat) (seg : PdiSegment) : Option (PdiSegment × List Nat) :=
  if seg.withinBuffer data.length then
    some (seg, (data.drop seg.lo).take (seg.hi - seg.lo))
  else none

/-- `SlaveGroup::io` (`slave_group.rs:109-127`): look up the slave at `idx`
(`none` when there is no such slave), then bounds-check its stored input and
output ranges against the full PDI buffer with `slice.get`.  The method takes
`&self` and writes nothing, so the embedding returns the group unchanged as the
second component. -/
def io (g : SlaveGroup) (idx : Nat) :
    Option (Option (PdiSegment × List Nat) × Option (PdiSegment × List Nat)) ×
      SlaveGroup :=
  match g.slaves[idx]? with
  | none => (none, g)
  | some s =>
    let i := s.config_io.input.bind fun seg => sliceGet g.pdi seg
    let o := s.config_io.output.bind fun seg => sliceGet g.pdi seg
    (some (i, o), g)

/-- Modelled from the spec: the network's view of one `Client::lrw_buf` call
(the client/PDU-loop sources are not in the snapshot).  Spec §4.3: a logical
read-write sends the buffer at a logical address and yields the bytes the
network wrote back together with the working counter, or fails with a
transport error. -/
def Lrw : Type := Nat → List Nat → Except Error (List Nat × Nat)

/-- `SlaveGroup::tx_rx` (`slave_group.rs:129-147`): one `lrw_buf` call at the
group's `start_address` over the full PDI buffer.  The received bytes are kept
regardless of the working-counter comparison; a mismatch is reported as
`Error::WorkingCounter` carrying the group's expectation and the observed
value.  A transport failure is modelled as leaving the buffer unchanged. -/
def tx_rx (g : SlaveGroup) (client_lrw : Lrw) : SlaveGroup × Except Error Unit :=
  match client_lrw g.start_address g.pdi with
  | .error e => (g, .error e)
  | .ok (res, wkc) =>
    let g' := { g with pdi := res }
    if wkc ≠ g.group_working_counter then
      (g', .error (.WorkingCounter g.group_working_counter wkc
        (some "group working counter")))
    else
      (g', .ok ())

/-- Sum of PDI bytes consumed by a list of slaves. -/
def totalBytes (ss : List Slave) : Nat :=
  (ss.map fun s => s.mapping.total_bytes).sum

/-- PDI bytes consumed by the first `k` slaves — the relative position at which
slave `k`'s ranges begin. -/
def bytesBefore (ss : List Slave) (k : Nat) : Nat :=
  ((ss.take k).map fun s => s.mapping.total_bytes).sum

/-- Sum of the slaves' working-counter contributions. -/
def wcTotal (ss : List Slave) : Nat :=
  (ss.map fun s => s.mapping.wc_contribution).sum

/-- The slave with its IO ranges assigned back to back at relative position
`pos`: input first, then output. -/
def withRanges (s : Slave) (pos : Nat) : Slave :=
  { s with config_io :=
      ⟨s.mapping.input_bytes.map fun n => PdiSegment.mk pos (pos + n),
       s.mapping.output_bytes.map fun n =>
         PdiSegment.mk (pos + s.mapping.input_bytes.getD 0)
           (pos + s.mapping.input_bytes.getD 0 + n)⟩ }

/-- The layout the walk produces: each slave's ranges start where the previous
slave's ranges ended. -/
def assignAll (pos : Nat) : List Slave → List Slave
  | [] => []
  | s :: rest => withRanges s pos :: assignAll (pos + s.mapping.total_bytes) rest

/-! ### Characterisation of the configuration walk -/

lemma pre_op_eq (base : Nat) (s : Slave) (offset : PdiOffset) :
    configure_from_eeprom_pre_op base s offset =
      (withRanges s (offset.start_address - base),
       ⟨offset.start_address + s.mapping.total_bytes⟩) := by
  simp [configure_from_eeprom_pre_op, withRanges, PdoMapping.total_bytes,
    Nat.add_assoc]

lemma withRanges_wc (s : Slave) (pos : Nat) :
    (withRanges s pos).config_io.working_counter_sum = s.mapping.wc_contribution := by
  simp [withRanges, IoRanges.working_counter_sum, PdoMapping.wc_contribution]

lemma config_walk_slaves_aux (base : Nat) (ss : List Slave) :
    ∀ pos gwc, (config_walk base ss ⟨base + pos⟩ gwc).1 = assignAll pos ss := by
  induction ss with
  | nil => intro pos gwc; rfl
  | cons s rest ih =>
    intro pos gwc
    simp only [config_walk, pre_op_eq, assignAll, Nat.add_sub_cancel_left,
      Nat.add_assoc]
    rw [ih]

lemma config_walk_slaves_self (ss : List Slave) (offset : PdiOffset) (gwc : Nat) :
    (config_walk offset.start_address ss offset gwc).1 = assignAll 0 ss := by
  simpa using config_walk_slaves_aux offset.start_address ss 0 gwc

lemma config_walk_offset (base : Nat) (ss : List Slave) :
    ∀ offset gwc, (config_walk base ss offset gwc).2.1 =
      ⟨offset.start_address + totalBytes ss⟩ := by
  induction ss with
  | nil => intro offset gwc; simp [config_walk, totalBytes]
  | cons s rest ih =>
    intro offset gwc
    simp only [config_walk, pre_op_eq]
    rw [ih]
    simp [totalBytes, Nat.add_assoc]

lemma config_walk_gwc (base : Nat) (ss : List Slave) :
    ∀ (offset : PdiOffset) (gwc : Nat), gwc < 2 ^ 16 →
      (config_walk base ss offset gwc).2.2 = (gwc + wcTotal ss) % 2 ^ 16 := by
  induction ss with
  | nil =>
    intro offset gwc h
    simp only [config_walk, wcTotal, List.map_nil, List.sum_nil, Nat.add_zero]
    omega
  | cons s rest ih =>
    intro offset gwc h
    simp only [config_walk, pre_op_eq, withRanges_wc]
    rw [ih ⟨offset.start_address + s.mapping.total_bytes⟩
        ((gwc + s.mapping.wc_contribution) % 2 ^ 16)
        (Nat.mod_lt _ (by norm_num))]
    simp only [wcTotal, List.map_cons, List.sum_cons, Nat.mod_add_mod,
      Nat.add_assoc]

lemma assignAll_length (pos : Nat) (ss : List Slave) :
    (assignAll pos ss).length = ss.length := by
  induction ss generalizing pos with
  | nil => rfl
  | cons s rest ih => simp [assignAll, ih]

lemma bytesBefore_zero (ss : List Slave) : bytesBefore ss 0 = 0 := by
  simp [bytesBefore]

lemma bytesBefore_cons_succ (s : Slave) (rest : List Slave) (k : Nat) :
    bytesBefore (s :: rest) (k + 1) =
      s.mapping.total_bytes + bytesBefore rest k := by
  simp [bytesBefore, List.take_succ_cons]

lemma assignAll_getElem (ss : List Slave) (pos k : Nat) (hk : k < ss.length) :
    (assignAll pos ss)[k]? =
      some (withRanges (ss.get ⟨k, hk⟩) (pos + bytesBefore ss k)) := by
  induction ss generalizing pos k with
  | nil => simp at hk
  | cons s rest ih =>
    cases k with
    | zero => simp [assignAll, bytesBefore_zero]
    | succ k =>
      have hk' : k < rest.length := by simpa using hk
      simp only [assignAll, List.getElem?_cons_succ, List.get_cons_succ]
      rw [ih _ _ hk', bytesBefore_cons_succ]
      congr 2
      omega

lemma bytesBefore_succ (ss : List Slave) (k : Nat) (hk : k < ss.length) :
    bytesBefore ss (k + 1) =
      bytesBefore ss k + (ss.get ⟨k, hk⟩).mapping.total_bytes := by
  unfold bytesBefore
  rw [List.map_take, List.map_take, List.take_succ]
  have hk' : k < (ss.map fun s => s.mapping.total_bytes).length := by simpa using hk
  rw [List.getElem?_eq_getElem hk']
  simp [List.get_eq_getElem]

lemma bytesBefore_le_total (ss : List Slave) (k : Nat) :
    bytesBefore ss k ≤ totalBytes ss := by
  unfold bytesBefore totalBytes
  rw [List.map_take]
  calc ((ss.map fun s => s.mapping.total_bytes).take k).sum
      ≤ ((ss.map fun s => s.mapping.total_bytes).take k).sum
          + ((ss.map fun s => s.mapping.total_bytes).drop k).sum := Nat.le_add_right _ _
    _ = (ss.map fun s => s.mapping.total_bytes).sum := List.sum_take_add_sum_drop _ _

lemma bytesBefore_mono (ss : List Slave) {k l : Nat} (h : k ≤ l) :
    bytesBefore ss k ≤ bytesBefore ss l := by
  unfold bytesBefore
  rw [List.map_take, List.map_take]
  obtain ⟨d, rfl⟩ := Nat.exists_eq_add_of_le h
  rw [List.take_add, List.sum_append]
  exact Nat.le_add_right _ _

/-- Any segment assigned to `withRanges s pos` lies inside
`[pos, pos + s.mapping.total_bytes)` and is well formed. -/
lemma withRanges_seg_bounds (s : Slave) (pos : Nat) (seg : PdiSegment)
    (h : (withRanges s pos).config_io.input = some seg ∨
         (withRanges s pos).config_io.output = some seg) :
    pos ≤ seg.lo ∧ seg.lo ≤ seg.hi ∧ seg.hi ≤ pos + s.mapping.total_bytes := by
  rcases h with h | h
  · rcases hi : s.mapping.input_bytes with _ | n
    · simp [withRanges, hi] at h
    · simp [withRanges, hi] at h
      subst h
      simp [PdoMapping.total_bytes, hi]
  · rcases ho : s.mapping.output_bytes with _ | n
    · simp [withRanges, ho] at h
    · simp [withRanges, ho] at h
      subst h
      simp [PdoMapping.total_bytes, ho]
      omega

lemma configure_snd (g : SlaveGroup) (offset : PdiOffset) :
    (configure_from_eeprom g offset).2 =
      if totalBytes g.slaves > g.pdi.length then
        .error (.PdiTooLong g.pdi.length (totalBytes g.slaves))
      else .ok ⟨offset.start_address + totalBytes g.slaves⟩ := by
  simp only [configure_from_eeprom, config_walk_offset, Nat.add_sub_cancel_left]
  split <;> rfl

lemma configure_fst (g : SlaveGroup) (offset : PdiOffset) :
    ((configure_from_eeprom g offset).1.slaves = assignAll 0 g.slaves) ∧
    ((configure_from_eeprom g offset).1.start_address = offset.start_address) ∧
    ((configure_from_eeprom g offset).1.pdi = g.pdi) ∧
    ((configure_from_eeprom g offset).1.pdi_len =
      if totalBytes g.slaves > g.pdi.length then g.pdi_len
      else totalBytes g.slaves) := by
  simp only [configure_from_eeprom, config_walk_offset, config_walk_slaves_self,
    Nat.add_sub_cancel_left]
  split <;> simp_all

lemma configure_fst_gwc (g : SlaveGroup) (offset : PdiOffset)
    (h : g.group_working_counter < 2 ^ 16) :
    (configure_from_eeprom g offset).1.group_working_counter =
      (g.group_working_counter + wcTotal g.slaves) % 2 ^ 16 := by
  simp only [configure_from_eeprom, config_walk_gwc _ _ _ _ h]
  split <;> rfl

lemma assignAll_get (ss : List Slave) (k : Nat) (hk : k < ss.length)
    (hk' : k < (assignAll 0 ss).length) :
    (assignAll 0 ss).get ⟨k, hk'⟩ =
      withRanges (ss.get ⟨k, hk⟩) (bytesBefore ss k) := by
  have h1 := assignAll_getElem ss 0 k hk
  rw [List.getElem?_eq_getElem hk'] at h1
  simpa [List.get_eq_getElem] using Option.some.inj h1

lemma assigned_seg_bounds (ss : List Slave) (k : Nat) (hk : k < ss.length)
    (hk' : k < (assignAll 0 ss).length) (seg : PdiSegment)
    (h : ((assignAll 0 ss).get ⟨k, hk'⟩).config_io.input = some seg ∨
         ((assignAll 0 ss).get ⟨k, hk'⟩).config_io.output = some seg) :
    bytesBefore ss k ≤ seg.lo ∧ seg.lo ≤ seg.hi ∧
      seg.hi ≤ bytesBefore ss (k + 1) := by
  rw [assignAll_get ss k hk hk'] at h
  have hb := withRanges_seg_bounds _ _ _ h
  rw [bytesBefore_succ ss k hk]
  exact hb

/-! ### Claim theorems -/

/-- C1: for every configuration walk that returns `Ok`, `pdi_len` equals the
sum of all slaves' input+output sizes; the slaves' byte ranges are assigned
back to back in slave order starting at the group's start address (ranges are
stored relative to `start_address`, so slave 0 starts at relative position 0 —
the group's start address — and each slave's ranges start where the previous
slave's ended); every assigned range lies fully within the group's PDI; and no
two slaves' ranges of the same direction overlap. -/
theorem c1_configure_layout (g g' : SlaveGroup) (offset off' : PdiOffset)
    (h : configure_from_eeprom g offset = (g', .ok off')) :
    g'.pdi_len = totalBytes g.slaves ∧
    g'.start_address = offset.start_address ∧
    g'.slaves.length = g.slaves.length ∧
    bytesBefore g.slaves 0 = 0 ∧
    (∀ k (hk : k < g.slaves.length),
      g'.slaves[k]? =
        some (withRanges (g.slaves.get ⟨k, hk⟩) (bytesBefore g.slaves k))) ∧
    (∀ k (hk : k < g.slaves.length),
      bytesBefore g.slaves (k + 1) =
        bytesBefore g.slaves k + (g.slaves.get ⟨k, hk⟩).mapping.total_bytes) ∧
    (∀ k (hk : k < g'.slaves.length) seg,
      ((g'.slaves.get ⟨k, hk⟩).config_io.input = some seg ∨
       (g'.slaves.get ⟨k, hk⟩).config_io.output = some seg) →
      seg.lo ≤ seg.hi ∧ seg.hi ≤ g'.pdi_len ∧ g'.pdi_len ≤ g'.pdi.length) ∧
    (∀ k l (hk : k < g'.slaves.length) (hl : l < g'.slaves.length), k ≠ l →
      ∀ a b,
        (((g'.slaves.get ⟨k, hk⟩).config_io.input = some a ∧
          (g'.slaves.get ⟨l, hl⟩).config_io.input = some b) ∨
         ((g'.slaves.get ⟨k, hk⟩).config_io.output = some a ∧
          (g'.slaves.get ⟨l, hl⟩).config_io.output = some b)) →
        ¬ a.Overlaps b) := by
  have hg' : (configure_from_eeprom g offset).1 = g' := by rw [h]
  have hsnd : (configure_from_eeprom g offset).2 = .ok off' := by rw [h]
  rw [configure_snd] at hsnd
  have hle : ¬ totalBytes g.slaves > g.pdi.length := by
    intro hc
    rw [if_pos hc] at hsnd
    exact Except.noConfusion hsnd
  have hf := configure_fst g offset
  rw [hg'] at hf
  have hslaves : g'.slaves = assignAll 0 g.slaves := hf.1
  have hstart : g'.start_address = offset.start_address := hf.2.1
  have hpdi : g'.pdi = g.pdi := hf.2.2.1
  have hlen : g'.pdi_len = totalBytes g.slaves := by
    rw [hf.2.2.2, if_neg hle]
  have hlength : g'.slaves.length = g.slaves.length := by
    rw [hslaves, assignAll_length]
  refine ⟨hlen, hstart, hlength, bytesBefore_zero _, ?_, ?_, ?_, ?_⟩
  · intro k hk
    rw [hslaves, assignAll_getElem g.slaves 0 k hk, Nat.zero_add]
  · intro k hk
    exact bytesBefore_succ g.slaves k hk
  · intro k hk seg hseg
    have hk0 : k < g.slaves.length := by rwa [hlength] at hk
    have hk1 : k < (assignAll 0 g.slaves).length := by
      rwa [assignAll_length]
    have hseg' : ((assignAll 0 g.slaves).get ⟨k, hk1⟩).config_io.input = some seg ∨
        ((assignAll 0 g.slaves).get ⟨k, hk1⟩).config_io.output = some seg := by
      rcases hseg with hseg | hseg
      · left
        rw [← hseg]
        congr 1
        simp [hslaves, List.get_eq_getElem]
      · right
        rw [← hseg]
        congr 1
        simp [hslaves, List.get_eq_getElem]
    have hb := assigned_seg_bounds g.slaves k hk0 hk1 seg hseg'
    have h1 : bytesBefore g.slaves (k + 1) ≤ totalBytes g.slaves :=
      bytesBefore_le_total _ _
    rw [hlen, hpdi]
    exact ⟨hb.2.1, le_trans hb.2.2 h1, not_lt.mp hle⟩
  · intro k l hk hl hne a b hab
    have hk0 : k < g.slaves.length := by rwa [hlength] at hk
    have hl0 : l < g.slaves.length := by rwa [hlength] at hl
    have hk1 : k < (assignAll 0 g.slaves).length := by rwa [assignAll_length]
    have hl1 : l < (assignAll 0 g.slaves).length := by rwa [assignAll_length]
    have hga : ∀ (j : Nat) (hj : j < g'.slaves.length)
        (hj1 : j < (assignAll 0 g.slaves).length),
        g'.slaves.get ⟨j, hj⟩ = (assignAll 0 g.slaves).get ⟨j, hj1⟩ := by
      intro j hj hj1
      simp [hslaves, List.get_eq_getElem]
    have ha : bytesBefore g.slaves k ≤ a.lo ∧ a.lo ≤ a.hi ∧
        a.hi ≤ bytesBefore g.slaves (k + 1) := by
      apply assigned_seg_bounds g.slaves k hk0 hk1
      rcases hab with ⟨h1, _⟩ | ⟨h1, _⟩
      · left; rw [← hga k hk hk1]; exact h1
      · right; rw [← hga k hk hk1]; exact h1
    have hb : bytesBefore g.slaves l ≤ b.lo ∧ b.lo ≤ b.hi ∧
        b.hi ≤ bytesBefore g.slaves (l + 1) := by
      apply assigned_seg_bounds g.slaves l hl0 hl1
      rcases hab with ⟨_, h2⟩ | ⟨_, h2⟩
      · left; rw [← hga l hl hl1]; exact h2
      · right; rw [← hga l hl hl1]; exact h2
    rintro ⟨x, ⟨hax1, hax2⟩, hbx1, hbx2⟩
    rcases Nat.lt_or_ge k l with hkl | hkl
    · have : bytesBefore g.slaves (k + 1) ≤ bytesBefore g.slaves l :=
        bytesBefore_mono _ hkl
      omega
    · have hlk : l < k := Nat.lt_of_le_of_ne hkl (fun hh => hne hh.symm)
      have : bytesBefore g.slaves (l + 1) ≤ bytesBefore g.slaves k :=
        bytesBefore_mono _ hlk
      omega

/-- C1 witness: a concrete group with a 2-byte-input/4-byte-output slave and a
1-byte-input slave configured at start address 10 — `pdi_len` is 7 and the
second slave's ranges start at relative position 6, where the first slave's
ended. -/
theorem c1_configure_layout_witness :
    (configure_from_eeprom
        ⟨[⟨⟨some 2, some 4⟩, ⟨none, none⟩⟩, ⟨⟨some 1, none⟩, ⟨none, none⟩⟩],
          List.replicate 16 0, 0, 0, 0⟩ ⟨10⟩).1.pdi_len = 7 ∧
    (configure_from_eeprom
        ⟨[⟨⟨some 2, some 4⟩, ⟨none, none⟩⟩, ⟨⟨some 1, none⟩, ⟨none, none⟩⟩],
          List.replicate 16 0, 0, 0, 0⟩ ⟨10⟩).1.slaves[1]? =
      some ⟨⟨some 1, none⟩, ⟨some ⟨6, 7⟩, none⟩⟩ := by
  have h := c1_configure_layout
    ⟨[⟨⟨some 2, some 4⟩, ⟨none, none⟩⟩, ⟨⟨some 1, none⟩, ⟨none, none⟩⟩],
      List.replicate 16 0, 0, 0, 0⟩
    (configure_from_eeprom
        ⟨[⟨⟨some 2, some 4⟩, ⟨none, none⟩⟩, ⟨⟨some 1, none⟩, ⟨none, none⟩⟩],
          List.replicate 16 0, 0, 0, 0⟩ ⟨10⟩).1
    ⟨10⟩ ⟨17⟩ rfl
  refine ⟨?_, ?_⟩
  · rw [h.1]; decide
  · rw [h.2.2.2.2.1 1 (by decide)]; decide

/-- C3: the configuration walk fails with `Error::PdiTooLong` exactly when the
total length the slaves need exceeds the group's compile-time capacity, and the
error carries `desired` = the capacity and `required` = the needed total; no
other error is produced. -/
theorem c3_pdi_too_long (g : SlaveGroup) (offset : PdiOffset) :
    ((configure_from_eeprom g offset).2 =
        .error (.PdiTooLong g.pdi.length (totalBytes g.slaves)) ↔
      totalBytes g.slaves > g.pdi.length) ∧
    ∀ e, (configure_from_eeprom g offset).2 = .error e →
      e = .PdiTooLong g.pdi.length (totalBytes g.slaves) := by
  rw [configure_snd]
  by_cases h : totalBytes g.slaves > g.pdi.length <;> simp [h]

/-- C3 witness: the §8 scenario — capacity 64, slaves needing 6 + 60 = 66
bytes — fails with desired 64, required 66. -/
theorem c3_pdi_too_long_witness :
    (configure_from_eeprom
        ⟨[⟨⟨some 2, some 4⟩, ⟨none, none⟩⟩, ⟨⟨some 30, some 30⟩, ⟨none, none⟩⟩],
          List.replicate 64 0, 0, 0, 0⟩ ⟨0⟩).2 =
      .error (.PdiTooLong 64 66) :=
  (c3_pdi_too_long
    ⟨[⟨⟨some 2, some 4⟩, ⟨none, none⟩⟩, ⟨⟨some 30, some 30⟩, ⟨none, none⟩⟩],
      List.replicate 64 0, 0, 0, 0⟩ ⟨0⟩).1.mpr (by decide)

/-- C4 counterexample: a group with `start_address = 0`,
`group_working_counter = 0` and zero-capacity PDI, configured at offset 5 with
one 1-byte-input slave, fails with `PdiTooLong` — yet its `start_address` is
now 5 and its `group_working_counter` is now 1, so the observable configuration
state is not the same as before the failed call. -/
theorem c4_partial_state_counterexample :
    ((configure_from_eeprom
        ⟨[⟨⟨some 1, none⟩, ⟨none, none⟩⟩], [], 0, 0, 0⟩ ⟨5⟩).2 =
      .error (.PdiTooLong 0 1)) ∧
    (configure_from_eeprom
        ⟨[⟨⟨some 1, none⟩, ⟨none, none⟩⟩], [], 0, 0, 0⟩ ⟨5⟩).1.start_address = 5 ∧
    (⟨[⟨⟨some 1, none⟩, ⟨none, none⟩⟩], [], 0, 0, 0⟩ :
        SlaveGroup).start_address = 0 ∧
    (configure_from_eeprom
        ⟨[⟨⟨some 1, none⟩, ⟨none, none⟩⟩], [], 0, 0, 0⟩
        ⟨5⟩).1.group_working_counter = 1 ∧
    (⟨[⟨⟨some 1, none⟩, ⟨none, none⟩⟩], [], 0, 0, 0⟩ :
        SlaveGroup).group_working_counter = 0 := by
  exact ⟨rfl, rfl, rfl, rfl, rfl⟩

/-- C4 amended: when the configuration walk fails with the capacity error the
group's `pdi_len` and PDI buffer are unchanged (the oversized length is never
adopted, and the call surfaces an error so the group cannot proceed towards
OP), but `start_address` has already been overwritten with the passed offset
and `group_working_counter` has been incremented by the walked slaves'
contributions. -/
theorem c4_error_preserves_pdi_len (g : SlaveGroup) (offset : PdiOffset)
    (e : Error) (h : (configure_from_eeprom g offset).2 = .error e) :
    (configure_from_eeprom g offset).1.pdi_len = g.pdi_len ∧
    (configure_from_eeprom g offset).1.pdi = g.pdi ∧
    (configure_from_eeprom g offset).1.start_address = offset.start_address := by
  have hf := configure_fst g offset
  by_cases hc : totalBytes g.slaves > g.pdi.length
  · exact ⟨by rw [hf.2.2.2, if_pos hc], hf.2.2.1, hf.2.1⟩
  · rw [configure_snd, if_neg hc] at h
    exact Except.noConfusion h

/-- C4 witness: the amended statement at the counterexample input — the failed
call leaves `pdi_len` untouched. -/
theorem c4_error_preserves_pdi_len_witness :
    (configure_from_eeprom
        ⟨[⟨⟨some 1, none⟩, ⟨none, none⟩⟩], [], 0, 0, 0⟩ ⟨5⟩).1.pdi_len = 0 :=
  (c4_error_preserves_pdi_len
    ⟨[⟨⟨some 1, none⟩, ⟨none, none⟩⟩], [], 0, 0, 0⟩ ⟨5⟩
    (.PdiTooLong 0 1) rfl).1

/-- C8: a configuration walk over a group with zero slaves returns `Ok` and
leaves `pdi_len` equal to 0. -/
theorem c8_empty_group (g : SlaveGroup) (offset : PdiOffset)
    (h : g.slaves = []) :
    (configure_from_eeprom g offset).2 = .ok ⟨offset.start_address⟩ ∧
    (configure_from_eeprom g offset).1.pdi_len = 0 := by
  have ht : totalBytes g.slaves = 0 := by simp [h, totalBytes]
  have hf := configure_fst g offset
  constructor
  · rw [configure_snd, ht]
    simp
  · rw [hf.2.2.2, ht]
    simp

/-- C8 witness: the empty group configured at offset 3. -/
theorem c8_empty_group_witness :
    (configure_from_eeprom ⟨[], [0, 0], 7, 9, 4⟩ ⟨3⟩).2 = .ok ⟨3⟩ ∧
    (configure_from_eeprom ⟨[], [0, 0], 7, 9, 4⟩ ⟨3⟩).1.pdi_len = 0 :=
  c8_empty_group ⟨[], [0, 0], 7, 9, 4⟩ ⟨3⟩ rfl

/-- C2: `tx_rx` performs one logical read-write at the group's
`start_address` over the group's entire PDI buffer — its outcome is a function
of that single exchange alone (any two networks agreeing on that one call give
identical results) — and it returns `Ok` exactly when the observed working
counter equals `group_working_counter`, otherwise `Error::WorkingCounter` with
`expected` the group's counter and `received` the observed one. -/
theorem c2_tx_rx_single_lrw (g : SlaveGroup) (lrw lrw' : Lrw)
    (res : List Nat) (wkc : Nat)
    (h : lrw g.start_address g.pdi = .ok (res, wkc))
    (h' : lrw' g.start_address g.pdi = .ok (res, wkc)) :
    tx_rx g lrw = tx_rx g lrw' ∧
    ((tx_rx g lrw).2 = .ok () ↔ wkc = g.group_working_counter) ∧
    (wkc ≠ g.group_working_counter →
      (tx_rx g lrw).2 = .error (.WorkingCounter g.group_working_counter wkc
        (some "group working counter"))) := by
  refine ⟨?_, ?_, ?_⟩
  · simp only [tx_rx, h, h']
  · by_cases hw : wkc = g.group_working_counter <;> simp [tx_rx, h, hw]
  · intro hw
    simp [tx_rx, h, hw]

/-- C2 witness: the §4.1 scenario — expected working counter 3, network
reports 2 — fails with `WorkingCounter`, expected 3, received 2. -/
theorem c2_tx_rx_single_lrw_witness :
    (tx_rx ⟨[], [0, 0], 2, 0, 3⟩ fun _ _ => .ok ([1, 1], 2)).2 =
      .error (.WorkingCounter 3 2 (some "group working counter")) :=
  (c2_tx_rx_single_lrw ⟨[], [0, 0], 2, 0, 3⟩
    (fun _ _ => .ok ([1, 1], 2)) (fun _ _ => .ok ([1, 1], 2))
    [1, 1] 2 rfl rfl).2.2 (by decide)

/-- C5: starting from a fresh group (counter 0) whose total contribution fits
a `u16`, a successful configuration walk leaves `group_working_counter` equal
to the sum over slaves of (1 if it has inputs) + (2 if it has outputs), and a
subsequent cyclic exchange succeeds exactly when it observes that value. -/
theorem c5_group_working_counter (g : SlaveGroup) (offset off' : PdiOffset)
    (h0 : g.group_working_counter = 0)
    (hlt : wcTotal g.slaves < 2 ^ 16)
    (_hok : (configure_from_eeprom g offset).2 = .ok off') :
    (configure_from_eeprom g offset).1.group_working_counter =
      wcTotal g.slaves ∧
    ∀ (lrw : Lrw) (res : List Nat) (wkc : Nat),
      lrw (configure_from_eeprom g offset).1.start_address
          (configure_from_eeprom g offset).1.pdi = .ok (res, wkc) →
      ((tx_rx (configure_from_eeprom g offset).1 lrw).2 = .ok () ↔
        wkc = wcTotal g.slaves) := by
  have hgwc : (configure_from_eeprom g offset).1.group_working_counter =
      wcTotal g.slaves := by
    rw [configure_fst_gwc g offset (by rw [h0]; norm_num), h0, Nat.zero_add,
      Nat.mod_eq_of_lt hlt]
  refine ⟨hgwc, ?_⟩
  intro lrw res wkc hlrw
  rw [← hgwc]
  by_cases hw : wkc = (configure_from_eeprom g offset).1.group_working_counter <;>
    simp [tx_rx, hlrw, hw]

/-- C5 witness: the §8 scenario — one slave with 2-byte input and 4-byte
output in a 64-byte group gives working counter 3. -/
theorem c5_group_working_counter_witness :
    (configure_from_eeprom
        ⟨[⟨⟨some 2, some 4⟩, ⟨none, none⟩⟩], List.replicate 64 0, 0, 0, 0⟩
        ⟨0⟩).1.group_working_counter = 3 := by
  have h := c5_group_working_counter
    ⟨[⟨⟨some 2, some 4⟩, ⟨none, none⟩⟩], List.replicate 64 0, 0, 0, 0⟩
    ⟨0⟩ ⟨6⟩ rfl (by norm_num [wcTotal, PdoMapping.wc_contribution]) rfl
  rw [h.1]
  decide

/-- C6: on a working-counter mismatch the PDI buffer is not rolled back — the
group ends up exactly `{ g with pdi := response }`, the same buffer contents a
successful call (one whose expectation matches the observed counter) would
leave, and no other field changes. -/
theorem c6_no_rollback (g : SlaveGroup) (lrw : Lrw) (res : List Nat) (wkc : Nat)
    (h : lrw g.start_address g.pdi = .ok (res, wkc))
    (hw : wkc ≠ g.group_working_counter) :
    (tx_rx g lrw).2 = .error (.WorkingCounter g.group_working_counter wkc
      (some "group working counter")) ∧
    (tx_rx g lrw).1 = { g with pdi := res } ∧
    (tx_rx g lrw).1.pdi =
      (tx_rx { g with group_working_counter := wkc } lrw).1.pdi := by
  have hm : lrw ({ g with group_working_counter := wkc } :
      SlaveGroup).start_address ({ g with group_working_counter := wkc } :
      SlaveGroup).pdi = .ok (res, wkc) := h
  refine ⟨?_, ?_, ?_⟩
  · simp [tx_rx, h, hw]
  · simp [tx_rx, h, hw]
  · simp [tx_rx, h, hm, hw]

/-- C6 witness: mismatch (expected 3, received 2) keeps the received bytes
`[7, 8]` in the PDI. -/
theorem c6_no_rollback_witness :
    (tx_rx ⟨[], [0, 0], 2, 0, 3⟩ fun _ _ => .ok ([7, 8], 2)).1 =
      ⟨[], [7, 8], 2, 0, 3⟩ :=
  (c6_no_rollback ⟨[], [0, 0], 2, 0, 3⟩ (fun _ _ => .ok ([7, 8], 2))
    [7, 8] 2 rfl (by decide)).2.1

/-- C9: `io` takes `&self` and mutates nothing — the group it returns is the
group it was given — so calling it twice with the same index and no
intervening `tx_rx` yields slices over identical underlying byte ranges. -/
theorem c9_io_idempotent (g : SlaveGroup) (idx : Nat) :
    (io g idx).2 = g ∧
    (io ((io g idx).2) idx).1 = (io g idx).1 := by
  have h2 : (io g idx).2 = g := by
    unfold io
    cases g.slaves[idx]? <;> rfl
  exact ⟨h2, by rw [h2]⟩

/-- C10: `io` is total: it returns `none` exactly when `idx` is not a slave of
the group; for a slave it returns the pair of bounds-checked slices, where a
direction is `none` exactly when the slave has no range in that direction or
the stored range fails the buffer bounds check (no panic); and no overlap
check relates the two returned slices — overlapping stored ranges are both
handed out. -/
theorem c10_io_total (g : SlaveGroup) (idx : Nat) :
    ((io g idx).1 = none ↔ ¬ idx < g.slaves.length) ∧
    (∀ s, g.slaves[idx]? = some s →
      (io g idx).1 =
        some (s.config_io.input.bind fun seg => sliceGet g.pdi seg,
              s.config_io.output.bind fun seg => sliceGet g.pdi seg) ∧
      ((s.config_io.input.bind fun seg => sliceGet g.pdi seg) = none ↔
        s.config_io.input = none ∨
        ∃ seg, s.config_io.input = some seg ∧
          ¬ seg.withinBuffer g.pdi.length) ∧
      ((s.config_io.output.bind fun seg => sliceGet g.pdi seg) = none ↔
        s.config_io.output = none ∨
        ∃ seg, s.config_io.output = some seg ∧
          ¬ seg.withinBuffer g.pdi.length)) ∧
    (∃ (g₀ : SlaveGroup) (a b : PdiSegment) (xs ys : List Nat),
      (io g₀ 0).1 = some (some (a, xs), some (b, ys)) ∧ a.Overlaps b) := by
  refine ⟨?_, ?_, ?_⟩
  · unfold io
    cases h : g.slaves[idx]? with
    | none =>
      simp only [List.getElem?_eq_none_iff] at h
      simp [h]
    | some s =>
      have : idx < g.slaves.length := by
        by_contra hc
        rw [List.getElem?_eq_none_iff.mpr (Nat.le_of_not_lt hc)] at h
        exact Option.noConfusion h
      simp [this]
  · intro s h
    unfold io
    rw [h]
    refine ⟨rfl, ?_, ?_⟩ <;>
    · cases hio : (Slave.config_io s).input <;>
      cases hoo : (Slave.config_io s).output <;>
      simp [hio, hoo, sliceGet]
  · refine ⟨⟨[⟨⟨some 2, some 2⟩, ⟨some ⟨0, 2⟩, some ⟨1, 3⟩⟩⟩], [9, 9, 9, 9],
      4, 0, 0⟩, ⟨0, 2⟩, ⟨1, 3⟩, [9, 9], [9, 9], by decide, 1, by decide⟩

/-- C10 witness: a group with one slave whose stored input range is out of the
buffer's bounds — `io 0` hands back `none` for the input rather than
panicking, and `io 1` (no such slave) is `none`. -/
theorem c10_io_total_witness :
    (io ⟨[⟨⟨some 9, none⟩, ⟨some ⟨0, 9⟩, none⟩⟩], [0, 0], 2, 0, 0⟩ 0).1 =
      some (none, none) ∧
    (io ⟨[⟨⟨some 9, none⟩, ⟨some ⟨0, 9⟩, none⟩⟩], [0, 0], 2, 0, 0⟩ 1).1 =
      none := by
  constructor
  · exact (c10_io_total ⟨[⟨⟨some 9, none⟩, ⟨some ⟨0, 9⟩, none⟩⟩],
      [0, 0], 2, 0, 0⟩ 0).2.1 ⟨⟨some 9, none⟩, ⟨some ⟨0, 9⟩, none⟩⟩ rfl |>.1
  · exact (c10_io_total ⟨[⟨⟨some 9, none⟩, ⟨some ⟨0, 9⟩, none⟩⟩],
      [0, 0], 2, 0, 0⟩ 1).1.mpr (by decide)

/-! ### Spec-modelled PDU loop (frame storage) -/

/-- Modelled from the spec: the life cycle of one frame slot (§3 Frame Slot:
`Free → Building → Sent → Received → Consumed → Free`); the frame-storage and
PDU-loop sources are not in the repository snapshot. -/
inductive SlotState where
  | Free
  | Building
  | Sent
  | Received
  | Consumed
deriving DecidableEq, Repr

/-- A slot is in flight while a request owns it: from acquisition until it
reaches `Consumed` (§3: an index is reused only after the prior holder reaches
`Consumed`). -/
def SlotState.inFlight : SlotState → Bool
  | .Building => true
  | .Sent => true
  | .Received => true
  | _ => false

/-- Modelled from the spec: the PDU loop's frame storage — `MAX_FRAMES` slots,
a request's correlation index being the position of the slot it owns (§3: a
small integer mod `MAX_FRAMES`, identifying the in-flight request). -/
structure PduLoop where
  slots : List SlotState
deriving DecidableEq, Repr

/-- The events the PDU loop and the receive path can perform on slot `idx`. -/
inductive PduEvent where
  | acquire (idx : Nat)
  | send (idx : Nat)
  | deliver (idx : Nat)
  | consume (idx : Nat)
  | timeout (idx : Nat)
  | release (idx : Nat)
deriving DecidableEq, Repr

/-- Modelled from the spec: slot transitions (§3 and §4.1) — acquire a free
slot, mark it sent, deliver the response carrying its correlation index to it,
consume it, reclaim it on timeout, and return it to the free pool.  A response
whose index does not name a `Sent` slot is stale and is discarded (no
transition exists for it). -/
inductive PduStep : PduLoop → PduEvent → PduLoop → Prop where
  | acquire {s : PduLoop} {i : Nat} (h : s.slots[i]? = some .Free) :
      PduStep s (.acquire i) ⟨s.slots.set i .Building⟩
  | send {s : PduLoop} {i : Nat} (h : s.slots[i]? = some .Building) :
      PduStep s (.send i) ⟨s.slots.set i .Sent⟩
  | deliver {s : PduLoop} {i : Nat} (h : s.slots[i]? = some .Sent) :
      PduStep s (.deliver i) ⟨s.slots.set i .Received⟩
  | consume {s : PduLoop} {i : Nat} (h : s.slots[i]? = some .Received) :
      PduStep s (.consume i) ⟨s.slots.set i .Consumed⟩
  | timeout {s : PduLoop} {i : Nat} (h : s.slots[i]? = some .Sent) :
      PduStep s (.timeout i) ⟨s.slots.set i .Consumed⟩
  | release {s : PduLoop} {i : Nat} (h : s.slots[i]? = some .Consumed) :
      PduStep s (.release i) ⟨s.slots.set i .Free⟩

/-- Reachability along any interleaving of PDU-loop events. -/
def PduReach (s s' : PduLoop) : Prop :=
  Relation.ReflTransGen (fun a b => ∃ e, PduStep a e b) s s'

/-- The correlation indices currently owned by in-flight requests. -/
def inFlightIdx (s : PduLoop) : List Nat :=
  (List.range s.slots.length).filter fun i => (s.slots.getD i .Free).inFlight

/-- C7: along any event sequence, a response is delivered exactly to the
`Sent` slot holding its correlation index — only that slot changes, becoming
`Received` — and the set of in-flight correlation indices never holds
duplicates (each index is one slot, so no two in-flight requests share an
index), before or after the delivery. -/
theorem c7_correlation_unique (init s s' : PduLoop) (i : Nat)
    (_hreach : PduReach init s) (hstep : PduStep s (.deliver i) s') :
    s.slots[i]? = some .Sent ∧
    s'.slots[i]? = some .Received ∧
    (∀ j, j ≠ i → s'.slots[j]? = s.slots[j]?) ∧
    (inFlightIdx s).Nodup ∧ (inFlightIdx s').Nodup := by
  cases hstep with
  | deliver h =>
    have hi : i < s.slots.length := by
      by_contra hc
      rw [List.getElem?_eq_none_iff.mpr (Nat.le_of_not_lt hc)] at h
      exact Option.noConfusion h
    refine ⟨h, ?_, ?_, ?_, ?_⟩
    · simpa using List.getElem?_set_self hi
    · intro j hj
      simpa using List.getElem?_set_ne (Ne.symm hj)
    · exact (List.nodup_range _).filter _
    · exact (List.nodup_range _).filter _

/-- C7 witness: a two-slot loop with slot 0 `Sent`; delivering the response
with correlation index 0 marks exactly slot 0 `Received`. -/
theorem c7_correlation_unique_witness :
    (⟨[SlotState.Sent, SlotState.Free]⟩ : PduLoop).slots[0]? =
        some SlotState.Sent ∧
    (⟨[SlotState.Received, SlotState.Free]⟩ : PduLoop).slots[0]? =
        some SlotState.Received ∧
    (∀ j, j ≠ 0 →
      (⟨[SlotState.Received, SlotState.Free]⟩ : PduLoop).slots[j]? =
        (⟨[SlotState.Sent, SlotState.Free]⟩ : PduLoop).slots[j]?) ∧
    (inFlightIdx ⟨[SlotState.Sent, SlotState.Free]⟩).Nodup ∧
    (inFlightIdx ⟨[SlotState.Received, SlotState.Free]⟩).Nodup :=
  c7_correlation_unique ⟨[SlotState.Sent, SlotState.Free]⟩
    ⟨[SlotState.Sent, SlotState.Free]⟩ ⟨[SlotState.Received, SlotState.Free]⟩
    0 Relation.ReflTransGen.refl (PduStep.deliver (by decide))

end EtherCrab
